import Mathlib

/-!
Verification development for the Claude Console session server.

The development shallowly embeds the core of the repository:

* the ring buffer and session-process registry of the process manager
  (`pty-manager.js` itself is not part of the provided sources; its behavior is
  modelled from the specification and from `test/pty-manager.test.js`),
* the WebSocket attach / replay / live protocol of `server.js`,
* the `safeSend` delivery helper of `server.js`,
* the resume-token capture listener of `server.js`,
* the atomic metadata store of `store.js`.

Byte chunks are modelled as lists of characters (`Chunk`); pseudo-terminal
output is a sequence of such chunks.
-/

/-- A chunk of terminal output, as delivered by the pseudo-terminal. -/
abbrev Chunk := List Char

/-- Total byte size of a buffered sequence of chunks. -/
def totalSize (buf : List Chunk) : Nat := (buf.map List.length).sum

/-- The fixed ring-buffer capacity (1 MiB), from the spec and from
`test/pty-manager.test.js` (`buffer should be trimmed to max 1MB`). -/
def MAX_BUFFER_SIZE : Nat := 1048576

/-- Modelled from the spec: the ring-buffer trim loop of the session process
(`pty-manager.js` is absent from the sources).  While the total buffered size
exceeds the capacity, whole chunks are discarded from the oldest end. -/
def trimBuffer (cap : Nat) : List Chunk → List Chunk
  | [] => []
  | c :: rest => if totalSize (c :: rest) ≤ cap then c :: rest else trimBuffer cap rest

/-- Modelled from the spec: `_pushToBuffer` of the session process
(`pty-manager.js` is absent from the sources).  Appends the chunk at the newest
end and trims oldest-first until the total fits the capacity; it always
succeeds. -/
def pushToBuffer (buf : List Chunk) (chunk : Chunk) : List Chunk :=
  trimBuffer MAX_BUFFER_SIZE (buf ++ [chunk])

theorem trimBuffer_le (cap : Nat) (l : List Chunk) : totalSize (trimBuffer cap l) ≤ cap := by
  induction l with
  | nil => simp [trimBuffer, totalSize]
  | cons c rest ih =>
      simp only [trimBuffer]
      split
      · assumption
      · exact ih

theorem trimBuffer_suffix (cap : Nat) (l : List Chunk) : trimBuffer cap l <:+ l := by
  induction l with
  | nil => simp [trimBuffer]
  | cons c rest ih =>
      simp only [trimBuffer]
      split
      · exact List.suffix_refl _
      · exact ih.trans (List.suffix_cons c rest)

theorem trimBuffer_of_le (cap : Nat) (l : List Chunk) (h : totalSize l ≤ cap) :
    trimBuffer cap l = l := by
  cases l with
  | nil => rfl
  | cons c rest => simp [trimBuffer, h]

/-- C2: after every `append`, the total buffered size is at most the capacity
of 1,048,576 bytes; the trimmed buffer is obtained by discarding whole chunks
from the oldest end of the appended sequence; when the appended sequence
already fits, nothing is discarded; and `append` is a total function (it never
fails). -/
theorem ring_buffer_bound (buf : List Chunk) (chunk : Chunk) :
    totalSize (pushToBuffer buf chunk) ≤ MAX_BUFFER_SIZE ∧
    pushToBuffer buf chunk <:+ buf ++ [chunk] ∧
    (totalSize (buf ++ [chunk]) ≤ MAX_BUFFER_SIZE → pushToBuffer buf chunk = buf ++ [chunk]) := by
  refine ⟨trimBuffer_le _ _, trimBuffer_suffix _ _, fun h => trimBuffer_of_le _ _ h⟩

/-- Witness for `ring_buffer_bound` at a concrete buffer and chunk. -/
theorem ring_buffer_bound_witness :
    totalSize (pushToBuffer [['a'], ['b', 'c']] ['d']) ≤ MAX_BUFFER_SIZE ∧
    pushToBuffer [['a'], ['b', 'c']] ['d'] <:+ [['a'], ['b', 'c']] ++ [['d']] ∧
    pushToBuffer [['a'], ['b', 'c']] ['d'] = [['a'], ['b', 'c']] ++ [['d']] := by
  have h := ring_buffer_bound [['a'], ['b', 'c']] ['d']
  exact ⟨h.1, h.2.1, h.2.2 (by decide)⟩

/-! ## Messages sent to a viewer connection

`server.js` sends JSON messages over the WebSocket; we model the message
constructors that the attach protocol emits. -/

/-- A message sent from the server to a viewer connection.  The `sessions`
broadcast carries the metadata list as (id, status) pairs. -/
inductive OutMsg where
  | output (sessionId : String) (data : Chunk)
  | replayDone (sessionId : String)
  | exited (sessionId : String)
  | sessions (recs : List (String × String))
  deriving DecidableEq, Repr

/-! ## The attach replay machine (`server.js` lines 250-275)

The attach case of the WebSocket message handler installs a data listener
first, replays the ring-buffer snapshot, sends a single `replay-done` marker,
then flushes the chunks queued by the listener during replay and switches the
listener to direct forwarding.  We embed the listener and the handler steps as
a machine, and let pseudo-terminal data events interleave arbitrarily with the
replay loop. -/

/-- The per-attach connection state: the `replaying` flag, the `pendingData`
queue, and the sequence of messages that have been sent to the viewer. -/
structure AttachConn where
  replaying : Bool
  pendingData : List Chunk
  sent : List OutMsg
  deriving DecidableEq, Repr

/-- The `dataListener` closure of the attach case: while `replaying`, queue the
chunk onto `pendingData`; otherwise forward it directly as a tagged `output`
message. -/
def dataListener (sid : String) (st : AttachConn) (data : Chunk) : AttachConn :=
  if st.replaying then { st with pendingData := st.pendingData ++ [data] }
  else { st with sent := st.sent ++ [OutMsg.output sid data] }

/-- One iteration of the replay loop: send the next snapshot chunk as a tagged
`output` message. -/
def replaySend (sid : String) (st : AttachConn) (chunk : Chunk) : AttachConn :=
  { st with sent := st.sent ++ [OutMsg.output sid chunk] }

/-- The end of the attach case: send the `replay-done` marker, clear the
`replaying` flag, and flush the queued chunks in order. -/
def finishReplay (sid : String) (st : AttachConn) : AttachConn :=
  let st1 := { st with sent := st.sent ++ [OutMsg.replayDone sid] }
  let st2 := { st1 with replaying := false }
  { st2 with sent := st2.sent ++ st2.pendingData.map (OutMsg.output sid) }

/-- An event during the replay window: either the handler sends the next
snapshot chunk, or a pseudo-terminal data event reaches the installed
listener. -/
inductive ReplayEv where
  | replayChunk (c : Chunk)
  | dataArrive (c : Chunk)
  deriving DecidableEq, Repr

/-- One replay-window event applied to the machine. -/
def replayStepEv (sid : String) (st : AttachConn) : ReplayEv → AttachConn
  | ReplayEv.replayChunk c => replaySend sid st c
  | ReplayEv.dataArrive c => dataListener sid st c

/-- The state of a freshly installed listener: replaying, nothing queued,
nothing sent since attach. -/
def initAttach : AttachConn := ⟨true, [], []⟩

/-- A whole attach execution: the replay window (an arbitrary interleaving of
snapshot sends and data arrivals), then the marker and flush, then the live
phase delivering `live` chunks through the listener. -/
def runAttachTrace (sid : String) (evs : List ReplayEv) (live : List Chunk) : AttachConn :=
  live.foldl (dataListener sid) (finishReplay sid (evs.foldl (replayStepEv sid) initAttach))

/-- The snapshot chunks replayed during a replay window, in order. -/
def replayed : List ReplayEv → List Chunk
  | [] => []
  | ReplayEv.replayChunk c :: r => c :: replayed r
  | ReplayEv.dataArrive _ :: r => replayed r

/-- The chunks arriving at the listener during a replay window, in order. -/
def arrived : List ReplayEv → List Chunk
  | [] => []
  | ReplayEv.replayChunk _ :: r => arrived r
  | ReplayEv.dataArrive c :: r => c :: arrived r

theorem replay_fold_spec (sid : String) (evs : List ReplayEv) (st : AttachConn)
    (h : st.replaying = true) :
    evs.foldl (replayStepEv sid) st =
      { replaying := true,
        pendingData := st.pendingData ++ arrived evs,
        sent := st.sent ++ (replayed evs).map (OutMsg.output sid) } := by
  induction evs generalizing st with
  | nil => simp [arrived, replayed]; cases st; simp_all
  | cons e r ih =>
      cases e with
      | replayChunk c =>
          simp only [List.foldl_cons, replayStepEv, replaySend]
          rw [ih { st with sent := st.sent ++ [OutMsg.output sid c] } h]
          simp [replayed, arrived]
      | dataArrive c =>
          simp only [List.foldl_cons, replayStepEv, dataListener, h, if_pos]
          rw [ih { replaying := true, pendingData := st.pendingData ++ [c], sent := st.sent } rfl]
          simp [replayed, arrived]

theorem live_fold_spec (sid : String) (live : List Chunk) (st : AttachConn)
    (h : st.replaying = false) :
    live.foldl (dataListener sid) st =
      { replaying := false,
        pendingData := st.pendingData,
        sent := st.sent ++ live.map (OutMsg.output sid) } := by
  induction live generalizing st with
  | nil => cases st; simp_all
  | cons c r ih =>
      simp only [List.foldl_cons, dataListener, h, Bool.false_eq_true, if_neg,
        not_false_eq_true]
      rw [ih _ rfl]
      simp

/-- C1: for every attach, the viewer receives first every chunk of the
ring-buffer snapshot (tagged with the session id, in original order), then
exactly one `replay-done` marker, and then every chunk that reached the
listener after it was installed — those arriving during the replay window
(`arrived evs`) followed by those arriving live — each exactly once and in
arrival order, for every interleaving of data arrivals with the replay loop. -/
theorem attach_replay_exact (sid : String) (evs : List ReplayEv) (live : List Chunk) :
    (runAttachTrace sid evs live).sent =
      (replayed evs).map (OutMsg.output sid) ++ [OutMsg.replayDone sid]
        ++ (arrived evs ++ live).map (OutMsg.output sid) := by
  unfold runAttachTrace
  rw [replay_fold_spec sid evs initAttach rfl]
  rw [live_fold_spec sid live _ rfl]
  simp [finishReplay, initAttach]

/-! ## The process-manager registry

`pty-manager.js` is absent from the sources; the registry and its per-session
operations are modelled from the specification (§4.2, §4.3) and from
`test/pty-manager.test.js`.  Listeners are identified by numeric ids (standing
for the identity of the callback closures registered by `server.js`). -/

/-- Modelled from the spec: one session process of the manager — its liveness,
its ring buffer, its registered output listeners, the input written to it, its
terminal size, and the number of exit notifications it has fired. -/
structure PtySession where
  alive : Bool
  buffer : List Chunk
  listeners : List Nat
  written : List Chunk
  cols : Nat
  rows : Nat
  exitCount : Nat
  deriving DecidableEq, Repr

/-- Modelled from the spec: the manager's id → session-process map, as an
association list. -/
abbrev Manager := List (String × PtySession)

/-- Modelled from the spec: `getProcess(id)` — the first entry with the given
id, if any. -/
def getProcess : Manager → String → Option PtySession
  | [], _ => none
  | p :: rest, id => if p.1 = id then some p.2 else getProcess rest id

/-- Apply `f` to every session stored under `id`; a no-op when `id` is
unknown. -/
def updateSession (m : Manager) (id : String) (f : PtySession → PtySession) : Manager :=
  m.map (fun p => if p.1 = id then (p.1, f p.2) else p)

/-- Modelled from the spec: `write(id, data)` — forwards input to the process
if it is alive; silent no-op when `id` is unknown or the process exited. -/
def write (m : Manager) (id : String) (data : Chunk) : Manager :=
  updateSession m id (fun s => if s.alive then { s with written := s.written ++ [data] } else s)

/-- Modelled from the spec: `resize(id, cols, rows)` — updates the terminal
size if the process is alive; silent no-op when `id` is unknown or exited. -/
def resize (m : Manager) (id : String) (cols rows : Nat) : Manager :=
  updateSession m id (fun s => if s.alive then { s with cols := cols, rows := rows } else s)

/-- Modelled from the spec: the shared exit-notification path — on the first
transition out of `alive`, fire the registered `onExit` callbacks exactly
once (counted by `exitCount`); a no-op on an already-exited session. -/
def procExit (s : PtySession) : PtySession :=
  if s.alive then { s with alive := false, exitCount := s.exitCount + 1 } else s

/-- Modelled from the spec: `kill()` on one session — forcibly terminates the
process if running, triggering the same exit-notification path as a natural
exit; idempotent. -/
def killSession (s : PtySession) : PtySession := procExit s

/-- Modelled from the spec: `kill(id)` — no-op when `id` is unknown. -/
def kill (m : Manager) (id : String) : Manager := updateSession m id killSession

/-- Modelled from the spec: the natural-exit event of the pseudo-terminal for
session `id`, delivered through the same notification path as `kill`. -/
def naturalExit (m : Manager) (id : String) : Manager := updateSession m id procExit

/-- Modelled from the spec: `isAlive(id)` — false when `id` is unknown. -/
def isAlive (m : Manager) (id : String) : Bool :=
  match getProcess m id with
  | some s => s.alive
  | none => false

/-- Modelled from the spec: `getBuffer(id)` — the ring-buffer snapshot; an
empty sequence when `id` is unknown. -/
def getBuffer (m : Manager) (id : String) : List Chunk :=
  match getProcess m id with
  | some s => s.buffer
  | none => []

/-- Modelled from the spec: `onData(id, fn)` — registers an output listener;
no-op when `id` is unknown. -/
def onData (m : Manager) (id : String) (l : Nat) : Manager :=
  updateSession m id (fun s => { s with listeners := s.listeners ++ [l] })

/-- Modelled from the spec: `offData(id, fn)` — unregisters the listener;
no-op when `id` is unknown. -/
def offData (m : Manager) (id : String) (l : Nat) : Manager :=
  updateSession m id (fun s => { s with listeners := s.listeners.filter (fun j => ¬ j = l) })

/-! ## The per-connection attach state of `server.js` (lines 204-301)

Each WebSocket connection holds `attachedSessionId` and `dataListener`.
Listener closures are modelled by numeric ids; `nextListenerId` stands for the
freshness of each newly created closure. -/

/-- The per-connection attach state of the `wss.on('connection')` handler. -/
structure ConnState where
  attachedSessionId : Option String
  dataListener : Option Nat
  nextListenerId : Nat
  deriving DecidableEq, Repr

/-- The `attach` case of the WebSocket message handler (`server.js` lines
232-277): look up the process (silent no-op if absent); detach the previous
listener if any; record the new session id; resize when both dimensions are
truthy; install a fresh listener; replay the buffer snapshot and send the
`replay-done` marker.  (The flush of `pendingData` is empty here because the
handler runs without interleaving; the interleaved replay window is the
`runAttachTrace` machine above.)  Returns the updated manager, the updated
connection state, and the messages sent to this viewer. -/
def attachCase (m : Manager) (sid : String) (cols rows : Nat) (conn : ConnState) :
    Manager × ConnState × List OutMsg :=
  match getProcess m sid with
  | none => (m, conn, [])
  | some _ =>
    let step1 : Manager × ConnState :=
      match conn.attachedSessionId, conn.dataListener with
      | some prev, some l => (offData m prev l, { conn with dataListener := none })
      | _, _ => (m, conn)
    let m1 := step1.1
    let conn1 := { step1.2 with attachedSessionId := some sid }
    let m2 := if cols ≠ 0 ∧ rows ≠ 0 then resize m1 sid cols rows else m1
    let newL := conn1.nextListenerId
    let conn2 := { conn1 with dataListener := some newL, nextListenerId := conn1.nextListenerId + 1 }
    let m3 := onData m2 sid newL
    (m3, conn2, (getBuffer m3 sid).map (OutMsg.output sid) ++ [OutMsg.replayDone sid])

/-! ## Registry lemmas -/

theorem getProcess_updateSession_self (m : Manager) (id : String) (f : PtySession → PtySession) :
    getProcess (updateSession m id f) id = (getProcess m id).map f := by
  induction m with
  | nil => rfl
  | cons p rest ih =>
      by_cases hp : p.1 = id
      · simp [updateSession, getProcess, hp]
      · simp only [updateSession, List.map_cons, if_neg hp, getProcess]
        simpa [updateSession, hp] using ih

theorem getProcess_updateSession_ne (m : Manager) (id id' : String) (h : ¬ id' = id)
    (f : PtySession → PtySession) :
    getProcess (updateSession m id f) id' = getProcess m id' := by
  induction m with
  | nil => rfl
  | cons p rest ih =>
      by_cases hp : p.1 = id
      · have hq : ¬ p.1 = id' := by
          rw [hp]; intro hc; exact h hc.symm
        simp only [updateSession, List.map_cons, if_pos hp, getProcess]
        simpa [updateSession, hq] using ih
      · simp only [updateSession, List.map_cons, if_neg hp, getProcess]
        by_cases hq : p.1 = id'
        · simp [hq]
        · simpa [updateSession, hq] using ih

theorem updateSession_unknown (m : Manager) (id : String) (h : getProcess m id = none)
    (f : PtySession → PtySession) : updateSession m id f = m := by
  induction m with
  | nil => rfl
  | cons p rest ih =>
      simp only [getProcess] at h
      by_cases hp : p.1 = id
      · rw [if_pos hp] at h
        exact absurd h (by simp)
      · rw [if_neg hp] at h
        simp only [updateSession, List.map_cons, if_neg hp]
        have := ih h
        simpa [updateSession] using this

/-- C4: every operation on an unknown session id is a silent no-op that
mutates no state: `write`, `resize` and `kill` leave the manager unchanged,
`isAlive` is false, `getBuffer` is empty, and the `attach` case leaves the
manager, the connection's attach state, and the outgoing message stream
completely unchanged. -/
theorem unknown_id_silent (m : Manager) (id : String) (h : getProcess m id = none)
    (data : Chunk) (c r : Nat) (conn : ConnState) (cols rows : Nat) :
    write m id data = m ∧ resize m id c r = m ∧ kill m id = m ∧
    isAlive m id = false ∧ getBuffer m id = [] ∧
    attachCase m id cols rows conn = (m, conn, []) := by
  refine ⟨updateSession_unknown m id h _, updateSession_unknown m id h _,
    updateSession_unknown m id h _, ?_, ?_, ?_⟩
  · simp [isAlive, h]
  · simp [getBuffer, h]
  · simp [attachCase, h]

/-- Witness for `unknown_id_silent`: a registry holding only session `"a"`,
queried at the unknown id `"b"`. -/
theorem unknown_id_silent_witness :
    write [("a", ⟨true, [], [], [], 0, 0, 0⟩)] "b" ['x'] = [("a", ⟨true, [], [], [], 0, 0, 0⟩)] ∧
    resize [("a", ⟨true, [], [], [], 0, 0, 0⟩)] "b" 80 24 = [("a", ⟨true, [], [], [], 0, 0, 0⟩)] ∧
    kill [("a", ⟨true, [], [], [], 0, 0, 0⟩)] "b" = [("a", ⟨true, [], [], [], 0, 0, 0⟩)] ∧
    isAlive [("a", ⟨true, [], [], [], 0, 0, 0⟩)] "b" = false ∧
    getBuffer [("a", ⟨true, [], [], [], 0, 0, 0⟩)] "b" = [] ∧
    attachCase [("a", ⟨true, [], [], [], 0, 0, 0⟩)] "b" 80 24 ⟨some "a", some 0, 1⟩ =
      ([("a", ⟨true, [], [], [], 0, 0, 0⟩)], ⟨some "a", some 0, 1⟩, []) :=
  unknown_id_silent [("a", ⟨true, [], [], [], 0, 0, 0⟩)] "b" (by decide) ['x'] 80 24
    ⟨some "a", some 0, 1⟩ 80 24

/-- C5: `kill(id)` is idempotent with respect to exit notification — for a
session that is alive, killing it twice in a row fires exactly one exit
notification, and killing it after a natural exit also leaves exactly one. -/
theorem kill_idempotent_exit (m : Manager) (id : String) (s : PtySession)
    (hs : getProcess m id = some s) (ha : s.alive = true) :
    (getProcess (kill (kill m id) id) id).map PtySession.exitCount = some (s.exitCount + 1) ∧
    (getProcess (kill (naturalExit m id) id) id).map PtySession.exitCount =
      some (s.exitCount + 1) := by
  have h1 : getProcess (kill (kill m id) id) id = some (killSession (killSession s)) := by
    unfold kill
    rw [getProcess_updateSession_self, getProcess_updateSession_self, hs]
    rfl
  have h2 : getProcess (kill (naturalExit m id) id) id = some (killSession (procExit s)) := by
    unfold kill naturalExit
    rw [getProcess_updateSession_self, getProcess_updateSession_self, hs]
    rfl
  rw [h1, h2]
  simp [killSession, procExit, ha]

/-- Witness for `kill_idempotent_exit` on a live concrete session. -/
theorem kill_idempotent_exit_witness :
    (getProcess (kill (kill [("a", ⟨true, [], [], [], 0, 0, 0⟩)] "a") "a") "a").map
        PtySession.exitCount = some 1 ∧
    (getProcess (kill (naturalExit [("a", ⟨true, [], [], [], 0, 0, 0⟩)] "a") "a") "a").map
        PtySession.exitCount = some 1 :=
  kill_idempotent_exit [("a", ⟨true, [], [], [], 0, 0, 0⟩)] "a" ⟨true, [], [], [], 0, 0, 0⟩
    (by decide) rfl

/-! ## The at-most-one-listener invariant (C3)

Listener ids stand for the identity of the `dataListener` closures created by
`server.js`; `nextListenerId` is the allocator of those identities, so a fresh
closure is distinct from every previously registered one. -/

/-- Every listener id registered anywhere in the registry was allocated below
the connection's fresh-id counter. -/
def freshInv (m : Manager) (conn : ConnState) : Prop :=
  ∀ p ∈ m, ∀ l ∈ p.2.listeners, l < conn.nextListenerId

/-- The connection's installed listener, if any, was already allocated and is
registered only on the session the connection is attached to. -/
def ownInv (m : Manager) (conn : ConnState) : Prop :=
  ∀ l, conn.dataListener = some l →
    l < conn.nextListenerId ∧
    ∀ p ∈ m, l ∈ p.2.listeners → conn.attachedSessionId = some p.1

theorem mem_updateSession (m : Manager) (id : String) (f : PtySession → PtySession)
    (p : String × PtySession) (hp : p ∈ updateSession m id f) :
    ∃ q ∈ m, (q.1 = id ∧ p = (q.1, f q.2)) ∨ (¬ q.1 = id ∧ p = q) := by
  obtain ⟨q, hq, he⟩ := List.mem_map.mp hp
  by_cases h : q.1 = id
  · exact ⟨q, hq, Or.inl ⟨h, by rw [← he, if_pos h]⟩⟩
  · exact ⟨q, hq, Or.inr ⟨h, by rw [← he, if_neg h]⟩⟩

theorem listeners_offData (m : Manager) (prev : String) (l : Nat)
    (p : String × PtySession) (hp : p ∈ offData m prev l) :
    ∃ q ∈ m, p.1 = q.1 ∧ p.2.listeners ⊆ q.2.listeners ∧ (q.1 = prev → l ∉ p.2.listeners) := by
  obtain ⟨q, hq, hca⟩ := mem_updateSession m prev _ p hp
  rcases hca with ⟨h1, h2⟩ | ⟨h1, h2⟩
  · refine ⟨q, hq, by rw [h2], ?_, ?_⟩
    · rw [h2]
      exact fun x hx => (List.mem_filter.mp hx).1
    · intro _ hl
      rw [h2] at hl
      simp at hl
  · exact ⟨q, hq, by rw [h2], by rw [h2]; exact fun x hx => hx, fun hc => absurd hc h1⟩

theorem listeners_resize_opt (m1 : Manager) (sid : String) (cols rows : Nat)
    (p : String × PtySession)
    (hp : p ∈ (if cols ≠ 0 ∧ rows ≠ 0 then resize m1 sid cols rows else m1)) :
    ∃ q ∈ m1, p.1 = q.1 ∧ p.2.listeners = q.2.listeners := by
  split at hp
  · obtain ⟨q, hq, hca⟩ := mem_updateSession m1 sid _ p hp
    rcases hca with ⟨h1, h2⟩ | ⟨h1, h2⟩
    · refine ⟨q, hq, by rw [h2], ?_⟩
      rw [h2]
      by_cases ha : q.2.alive <;> simp [ha]
    · exact ⟨q, hq, by rw [h2], by rw [h2]⟩
  · exact ⟨p, hp, rfl, rfl⟩

theorem listeners_onData (m : Manager) (id : String) (nl : Nat)
    (p : String × PtySession) (hp : p ∈ onData m id nl) :
    ∃ q ∈ m, p.1 = q.1 ∧
      (p.2.listeners = q.2.listeners ∨ (q.1 = id ∧ p.2.listeners = q.2.listeners ++ [nl])) := by
  obtain ⟨q, hq, hca⟩ := mem_updateSession m id _ p hp
  rcases hca with ⟨h1, h2⟩ | ⟨h1, h2⟩
  · exact ⟨q, hq, by rw [h2], Or.inr ⟨h1, by rw [h2]⟩⟩
  · exact ⟨q, hq, by rw [h2], Or.inl (by rw [h2])⟩

theorem getProcess_updateSession_isSome (m : Manager) (id : String)
    (f : PtySession → PtySession) (id' : String) :
    (getProcess (updateSession m id f) id').isSome = (getProcess m id').isSome := by
  by_cases h : id' = id
  · subst h
    rw [getProcess_updateSession_self]
    cases getProcess m id' <;> rfl
  · rw [getProcess_updateSession_ne m id id' h]

/-- The detach-from-previous step of the attach case (`server.js` lines
237-241): remove the connection's listener from the previously attached
session, if there was one. -/
def detachPrev (m : Manager) (conn : ConnState) : Manager :=
  match conn.attachedSessionId, conn.dataListener with
  | some prev, some l => offData m prev l
  | _, _ => m

theorem attachCase_eq (m : Manager) (sid : String) (cols rows : Nat) (conn : ConnState)
    (s0 : PtySession) (hs0 : getProcess m sid = some s0) :
    attachCase m sid cols rows conn =
      (onData (if cols ≠ 0 ∧ rows ≠ 0 then resize (detachPrev m conn) sid cols rows
          else detachPrev m conn) sid conn.nextListenerId,
       ⟨some sid, some conn.nextListenerId, conn.nextListenerId + 1⟩,
       (getBuffer (onData (if cols ≠ 0 ∧ rows ≠ 0 then resize (detachPrev m conn) sid cols rows
          else detachPrev m conn) sid conn.nextListenerId) sid).map (OutMsg.output sid)
         ++ [OutMsg.replayDone sid]) := by
  unfold attachCase detachPrev
  rw [hs0]
  rcases conn with ⟨att, dl, next⟩
  rcases att with _ | prev <;> rcases dl with _ | l <;> rfl

theorem listeners_detachPrev (m : Manager) (conn : ConnState) (hown : ownInv m conn)
    (p : String × PtySession) (hp : p ∈ detachPrev m conn) :
    ∃ q ∈ m, p.1 = q.1 ∧ p.2.listeners ⊆ q.2.listeners ∧
      ∀ l, conn.dataListener = some l → l ∉ p.2.listeners := by
  cases hatt : conn.attachedSessionId with
  | none =>
      cases hdl : conn.dataListener with
      | none =>
          simp only [detachPrev, hatt, hdl] at hp
          exact ⟨p, hp, rfl, fun x hx => hx, fun l hl => absurd hl (by simp)⟩
      | some l =>
          simp only [detachPrev, hatt, hdl] at hp
          refine ⟨p, hp, rfl, fun x hx => hx, ?_⟩
          intro l' hl' hmem
          obtain rfl : l = l' := by injection hl'
          have hthis := (hown l hdl).2 p hp hmem
          rw [hatt] at hthis
          exact absurd hthis (by simp)
  | some prev =>
      cases hdl : conn.dataListener with
      | none =>
          simp only [detachPrev, hatt, hdl] at hp
          exact ⟨p, hp, rfl, fun x hx => hx, fun l hl => absurd hl (by simp)⟩
      | some l =>
          simp only [detachPrev, hatt, hdl] at hp
          obtain ⟨q, hq, h1, h2, h3⟩ := listeners_offData m prev l p hp
          refine ⟨q, hq, h1, h2, ?_⟩
          intro l' hl' hmem
          obtain rfl : l = l' := by injection hl'
          have hql : l ∈ q.2.listeners := h2 hmem
          have hthis := (hown l hdl).2 q hq hql
          rw [hatt] at hthis
          have hqp : q.1 = prev := by injection hthis with h; exact h.symm
          exact absurd hmem (h3 hqp)

theorem listeners_attach_chain (m : Manager) (conn : ConnState) (sid : String)
    (cols rows nl : Nat) (hown : ownInv m conn) (p : String × PtySession)
    (hp : p ∈ onData (if cols ≠ 0 ∧ rows ≠ 0 then resize (detachPrev m conn) sid cols rows
        else detachPrev m conn) sid nl) :
    ∃ q ∈ m, p.1 = q.1 ∧
      ∀ j ∈ p.2.listeners,
        (j ∈ q.2.listeners ∧ ∀ l, conn.dataListener = some l → ¬ j = l) ∨
        (p.1 = sid ∧ j = nl) := by
  obtain ⟨q2, hq2, he2, hca⟩ := listeners_onData _ sid nl p hp
  obtain ⟨q1, hq1, he1, hl1⟩ := listeners_resize_opt (detachPrev m conn) sid cols rows q2 hq2
  obtain ⟨q0, hq0, he0, hsub, hnol⟩ := listeners_detachPrev m conn hown q1 hq1
  refine ⟨q0, hq0, by rw [he2, he1, he0], ?_⟩
  intro j hj
  rcases hca with hsame | ⟨hkey, happ⟩
  · rw [hsame, hl1] at hj
    exact Or.inl ⟨hsub hj, fun l hl hjl => hnol l hl (hjl ▸ hj)⟩
  · rw [happ, hl1] at hj
    rcases List.mem_append.mp hj with hj' | hj'
    · exact Or.inl ⟨hsub hj', fun l hl hjl => hnol l hl (hjl ▸ hj')⟩
    · have hjnl : j = nl := by simpa using hj'
      exact Or.inr ⟨by rw [he2, hkey], hjnl⟩

/-- C3: when a connection already holding a listener attaches to a session
`sid` that exists, the previous listener is removed from the registry entirely
(so the connection receives no further output from the previously attached
session), the freshly installed listener is registered on `sid` (and, by the
preserved invariant, only on `sid`), and the invariant that the connection is
never registered as a listener on two sessions simultaneously is maintained. -/
theorem attach_single_listener (m : Manager) (conn : ConnState) (sid : String)
    (cols rows : Nat) (s0 : PtySession) (hs0 : getProcess m sid = some s0)
    (hfresh : freshInv m conn) (hown : ownInv m conn) :
    (attachCase m sid cols rows conn).2.1.attachedSessionId = some sid ∧
    (attachCase m sid cols rows conn).2.1.dataListener = some conn.nextListenerId ∧
    (∀ l, conn.dataListener = some l →
      ∀ p ∈ (attachCase m sid cols rows conn).1, l ∉ p.2.listeners) ∧
    (∃ s, getProcess (attachCase m sid cols rows conn).1 sid = some s ∧
      conn.nextListenerId ∈ s.listeners) ∧
    ownInv (attachCase m sid cols rows conn).1 (attachCase m sid cols rows conn).2.1 ∧
    freshInv (attachCase m sid cols rows conn).1 (attachCase m sid cols rows conn).2.1 := by
  rw [attachCase_eq m sid cols rows conn s0 hs0]
  dsimp only
  refine ⟨rfl, rfl, ?_, ?_, ?_, ?_⟩
  · -- the old listener is gone from every registry entry
    intro l hl p hp hmem
    obtain ⟨q, hq, _, hall⟩ :=
      listeners_attach_chain m conn sid cols rows conn.nextListenerId hown p hp
    rcases hall l hmem with ⟨_, hne⟩ | ⟨_, hlnl⟩
    · exact hne l hl rfl
    · have hlt := (hown l hl).1
      rw [hlnl] at hlt
      exact absurd hlt (by omega)
  · -- the new listener is registered on sid
    have hsome2 : (getProcess (if cols ≠ 0 ∧ rows ≠ 0 then
        resize (detachPrev m conn) sid cols rows else detachPrev m conn) sid).isSome = true := by
      have hd : (getProcess (detachPrev m conn) sid).isSome = true := by
        unfold detachPrev
        cases hatt : conn.attachedSessionId with
        | none => cases hdl : conn.dataListener <;> simp [hs0]
        | some prev =>
            cases hdl : conn.dataListener with
            | none => simp [hs0]
            | some l =>
                unfold offData
                rw [getProcess_updateSession_isSome]
                simp [hs0]
      split
      · unfold resize
        rw [getProcess_updateSession_isSome]
        exact hd
      · exact hd
    obtain ⟨s2, hs2⟩ := Option.isSome_iff_exists.mp hsome2
    refine ⟨{ s2 with listeners := s2.listeners ++ [conn.nextListenerId] }, ?_, by simp⟩
    unfold onData
    rw [getProcess_updateSession_self, hs2]
    rfl
  · -- ownInv is preserved: the new listener lives only on sid
    intro l hl
    have hlval : l = conn.nextListenerId := by injection hl with h; exact h.symm
    subst hlval
    refine ⟨?_, ?_⟩
    · show conn.nextListenerId < conn.nextListenerId + 1
      omega
    intro p hp hmem
    obtain ⟨q, hq, he, hall⟩ :=
      listeners_attach_chain m conn sid cols rows conn.nextListenerId hown p hp
    rcases hall conn.nextListenerId hmem with ⟨hqmem, _⟩ | ⟨hpsid, _⟩
    · have := hfresh q hq conn.nextListenerId hqmem
      exact absurd this (by omega)
    · rw [hpsid]
  · -- freshInv is preserved
    intro p hp j hj
    obtain ⟨q, hq, _, hall⟩ :=
      listeners_attach_chain m conn sid cols rows conn.nextListenerId hown p hp
    rcases hall j hj with ⟨hqmem, _⟩ | ⟨_, hjnl⟩
    · have hlt := hfresh q hq j hqmem
      show j < conn.nextListenerId + 1
      omega
    · show j < conn.nextListenerId + 1
      omega

/-- Witness for `attach_single_listener`: a connection attached to session
`"a"` with listener `0` attaches to session `"b"`. -/
theorem attach_single_listener_witness :
    (attachCase [("a", ⟨true, [], [0], [], 0, 0, 0⟩), ("b", ⟨true, [], [], [], 0, 0, 0⟩)]
        "b" 80 24 ⟨some "a", some 0, 1⟩).2.1.attachedSessionId = some "b" ∧
    (attachCase [("a", ⟨true, [], [0], [], 0, 0, 0⟩), ("b", ⟨true, [], [], [], 0, 0, 0⟩)]
        "b" 80 24 ⟨some "a", some 0, 1⟩).2.1.dataListener = some 1 ∧
    (∀ l, (some 0 : Option Nat) = some l →
      ∀ p ∈ (attachCase [("a", ⟨true, [], [0], [], 0, 0, 0⟩), ("b", ⟨true, [], [], [], 0, 0, 0⟩)]
        "b" 80 24 ⟨some "a", some 0, 1⟩).1, l ∉ p.2.listeners) ∧
    (∃ s, getProcess (attachCase [("a", ⟨true, [], [0], [], 0, 0, 0⟩), ("b", ⟨true, [], [], [], 0, 0, 0⟩)]
        "b" 80 24 ⟨some "a", some 0, 1⟩).1 "b" = some s ∧ 1 ∈ s.listeners) ∧
    ownInv (attachCase [("a", ⟨true, [], [0], [], 0, 0, 0⟩), ("b", ⟨true, [], [], [], 0, 0, 0⟩)]
        "b" 80 24 ⟨some "a", some 0, 1⟩).1
      (attachCase [("a", ⟨true, [], [0], [], 0, 0, 0⟩), ("b", ⟨true, [], [], [], 0, 0, 0⟩)]
        "b" 80 24 ⟨some "a", some 0, 1⟩).2.1 ∧
    freshInv (attachCase [("a", ⟨true, [], [0], [], 0, 0, 0⟩), ("b", ⟨true, [], [], [], 0, 0, 0⟩)]
        "b" 80 24 ⟨some "a", some 0, 1⟩).1
      (attachCase [("a", ⟨true, [], [0], [], 0, 0, 0⟩), ("b", ⟨true, [], [], [], 0, 0, 0⟩)]
        "b" 80 24 ⟨some "a", some 0, 1⟩).2.1 :=
  attach_single_listener
    [("a", ⟨true, [], [0], [], 0, 0, 0⟩), ("b", ⟨true, [], [], [], 0, 0, 0⟩)]
    ⟨some "a", some 0, 1⟩ "b" 80 24 ⟨true, [], [], [], 0, 0, 0⟩ (by decide)
    (by
      intro p hp l hl
      simp only [List.mem_cons, List.not_mem_nil, or_false] at hp
      rcases hp with rfl | rfl
      · simp at hl
        show l < 1
        omega
      · simp at hl)
    (by
      intro l hl
      have hl0 : some 0 = some l := hl
      obtain rfl : l = 0 := by injection hl0 with h; omega
      refine ⟨Nat.zero_lt_one, ?_⟩
      intro p hp hmem
      simp only [List.mem_cons, List.not_mem_nil, or_false] at hp
      rcases hp with rfl | rfl
      · rfl
      · simp at hmem)

/-! ## Resume-token capture (`server.js` lines 89-107)

The capture listener scans each output chunk with the fixed-format UUID
regular expression `[0-9a-f]{8}-[0-9a-f]{4}-[0-9a-f]{4}-[0-9a-f]{4}-[0-9a-f]{12}`
(case-insensitive), records the first match as the session's resume token,
unregisters itself, and fires the persist/broadcast effect once. -/

/-- A hexadecimal digit, case-insensitive (the regex has the `i` flag). -/
def isHexDigit (c : Char) : Bool :=
  ('0' ≤ c && c ≤ '9') || ('a' ≤ c && c ≤ 'f') || ('A' ≤ c && c ≤ 'F')

/-- Consume exactly `n` hexadecimal digits from the front. -/
def takeHex : Nat → List Char → Option (List Char × List Char)
  | 0, cs => some ([], cs)
  | _ + 1, [] => none
  | n + 1, c :: cs =>
      if isHexDigit c then
        match takeHex n cs with
        | some (h, r) => some (c :: h, r)
        | none => none
      else none

/-- Consume a literal dash from the front. -/
def takeDash : List Char → Option (List Char)
  | '-' :: cs => some cs
  | _ => none

/-- Match the 8-4-4-4-12 UUID shape at the head of the character list,
returning the matched text. -/
def uuidAt (cs : List Char) : Option (List Char) :=
  (takeHex 8 cs).bind fun p1 =>
  (takeDash p1.2).bind fun r1 =>
  (takeHex 4 r1).bind fun p2 =>
  (takeDash p2.2).bind fun r2 =>
  (takeHex 4 r2).bind fun p3 =>
  (takeDash p3.2).bind fun r3 =>
  (takeHex 4 r3).bind fun p4 =>
  (takeDash p4.2).bind fun r4 =>
  (takeHex 12 r4).bind fun p5 =>
  some (p1.1 ++ ['-'] ++ p2.1 ++ ['-'] ++ p3.1 ++ ['-'] ++ p4.1 ++ ['-'] ++ p5.1)

/-- `data.match(uuidRegex)`: the leftmost UUID-shaped match in the chunk. -/
def firstUuid : List Char → Option (List Char)
  | [] => none
  | c :: rest =>
      match uuidAt (c :: rest) with
      | some u => some u
      | none => firstUuid rest

/-- The state of the capture machinery for one spawned session: the recorded
resume token, whether the capture listener is still registered, and how many
times the capture effect (record + unregister + persist + broadcast) has
fired. -/
structure CaptureState where
  claudeSessionId : Option (List Char)
  listenerActive : Bool
  captureCount : Nat
  deriving DecidableEq, Repr

/-- The `captureListener` closure: invoked only while registered; on the first
chunk with a UUID-shaped match it records the match, unregisters itself via
`offData`, and fires the capture effect. -/
def captureStep (st : CaptureState) (data : List Char) : CaptureState :=
  if st.listenerActive then
    match firstUuid data with
    | some u => ⟨some u, false, st.captureCount + 1⟩
    | none => st
  else st

/-- Capture state right after `spawnSession` registers the listener. -/
def initCapture : CaptureState := ⟨none, true, 0⟩

/-- Feed a sequence of output chunks through the capture listener. -/
def runCapture (chunks : List (List Char)) (st : CaptureState) : CaptureState :=
  chunks.foldl captureStep st

/-- The leftmost UUID-shaped match of the first chunk containing one. -/
def firstCapturedUuid : List (List Char) → Option (List Char)
  | [] => none
  | c :: rest =>
      match firstUuid c with
      | some u => some u
      | none => firstCapturedUuid rest

theorem runCapture_inactive (chunks : List (List Char)) (st : CaptureState)
    (h : st.listenerActive = false) : runCapture chunks st = st := by
  induction chunks generalizing st with
  | nil => rfl
  | cons c rest ih =>
      simp only [runCapture, List.foldl_cons, captureStep, h, Bool.false_eq_true, if_neg,
        not_false_eq_true]
      exact ih st h

/-- C6: resume-token capture fires at most once per spawned session — over any
output chunk sequence, the recorded token is the leftmost UUID-shaped match of
the first chunk containing one (so with two distinct tokens, in one chunk or
across chunks, only the first is recorded), the capture effect fires exactly
once when any match exists and never otherwise, and the capture listener is
unregistered as soon as a match is found. -/
theorem capture_single (chunks : List (List Char)) :
    (runCapture chunks initCapture).claudeSessionId = firstCapturedUuid chunks ∧
    (runCapture chunks initCapture).captureCount =
      (if (firstCapturedUuid chunks).isSome then 1 else 0) ∧
    (runCapture chunks initCapture).listenerActive = (firstCapturedUuid chunks).isNone := by
  induction chunks with
  | nil => exact ⟨rfl, rfl, rfl⟩
  | cons c rest ih =>
      cases hu : firstUuid c with
      | some u =>
          have hstep : captureStep initCapture c = ⟨some u, false, 1⟩ := by
            simp [captureStep, initCapture, hu]
          simp only [runCapture, List.foldl_cons, hstep]
          have hrest := runCapture_inactive rest ⟨some u, false, 1⟩ rfl
          simp only [runCapture] at hrest
          rw [hrest]
          simp [firstCapturedUuid, hu]
      | none =>
          have hstep : captureStep initCapture c = initCapture := by
            simp [captureStep, initCapture, hu]
          simp only [runCapture, List.foldl_cons, hstep]
          simp only [runCapture] at ih
          simpa [firstCapturedUuid, hu] using ih

/-! ## Exit notification does not auto-detach (`server.js` lines 79-87) -/

/-- A session metadata record of `server.js` (the fields the exit handler
touches). -/
structure SessionRec where
  id : String
  status : String
  deriving DecidableEq, Repr

/-- The server state visible to the `manager.onExit` handler: the session
metadata list and one viewer connection's attach state. -/
structure ServerState where
  sessionRecs : List SessionRec
  conn : ConnState
  deriving DecidableEq, Repr

/-- The `manager.onExit` callback installed by `spawnSession`: marks the
session record exited, persists, broadcasts the updated session list, and
sends an `exited` message to every client.  It does not touch any
connection's attach state. -/
def exitHandler (sid : String) (st : ServerState) : ServerState × List OutMsg :=
  let recs := st.sessionRecs.map (fun s => if s.id = sid then { s with status := "exited" } else s)
  ({ st with sessionRecs := recs },
   [OutMsg.sessions (recs.map (fun s => (s.id, s.status))), OutMsg.exited sid])

/-- C7: when the attached session's process exits, the viewer is notified with
an `exited` event, but the connection's attached session id and installed
listener are unchanged — the attach state after the exit notification equals
the attach state before it. -/
theorem exit_no_autodetach (sid : String) (st : ServerState) :
    (exitHandler sid st).1.conn.attachedSessionId = st.conn.attachedSessionId ∧
    (exitHandler sid st).1.conn.dataListener = st.conn.dataListener ∧
    (exitHandler sid st).1.conn = st.conn ∧
    OutMsg.exited sid ∈ (exitHandler sid st).2 := by
  exact ⟨rfl, rfl, rfl, by simp [exitHandler]⟩

/-! ## `safeSend` isolates delivery failures (`server.js` lines 37-45) -/

/-- The state of one WebSocket peer: its ready state and whether `ws.send`
currently throws (peer disconnected mid-send). -/
structure WsState where
  readyState : Nat
  sendFails : Bool
  deriving DecidableEq, Repr

/-- The raw `ws.send`: appends the message to the delivery log, or throws. -/
def sendRaw (ws : WsState) (log : List OutMsg) (msg : OutMsg) : Except String (List OutMsg) :=
  if ws.sendFails then Except.error "EPIPE" else Except.ok (log ++ [msg])

/-- `safeSend`: send only when the socket is open (`readyState === 1`), and
swallow any send error. -/
def safeSend (ws : WsState) (log : List OutMsg) (msg : OutMsg) : List OutMsg :=
  if ws.readyState = 1 then
    match sendRaw ws log msg with
    | Except.ok l => l
    | Except.error _ => log
  else log

/-- `safeSend` with the thrown error made explicit: the try/catch returns
normally in every case. -/
def safeSendE (ws : WsState) (log : List OutMsg) (msg : OutMsg) : Except String (List OutMsg) :=
  if ws.readyState = 1 then
    match sendRaw ws log msg with
    | Except.ok l => Except.ok l
    | Except.error _ => Except.ok log
  else Except.ok log

/-- One registered output listener: the peer it writes to and the messages
delivered so far. -/
structure ListenerConn where
  ws : WsState
  log : List OutMsg
  deriving DecidableEq, Repr

/-- Deliver one output chunk to one listener through `safeSend`. -/
def deliverChunk (sid : String) (c : Chunk) (l : ListenerConn) : ListenerConn :=
  { l with log := safeSend l.ws l.log (OutMsg.output sid c) }

/-- Fan an output chunk out to every registered listener. -/
def fanout (sid : String) (c : Chunk) (ls : List ListenerConn) : List ListenerConn :=
  ls.map (deliverChunk sid c)

/-- C8: a failure while sending to one viewer is caught and discarded at the
point of delivery — `safeSend` never propagates an error, the fan-out leaves
the set of registered listeners unchanged (a failing listener stays registered
until an explicit detach removes it), and a healthy open listener still
receives the chunk regardless of other listeners failing. -/
theorem send_failure_isolated (sid : String) (c : Chunk) (ls : List ListenerConn)
    (l : ListenerConn) (hmem : l ∈ ls)
    (hok : l.ws.sendFails = false) (hready : l.ws.readyState = 1) :
    (∀ ws log msg, safeSendE ws log msg = Except.ok (safeSend ws log msg)) ∧
    (fanout sid c ls).map (fun x => x.ws) = ls.map (fun x => x.ws) ∧
    (deliverChunk sid c l).log = l.log ++ [OutMsg.output sid c] ∧
    deliverChunk sid c l ∈ fanout sid c ls := by
  refine ⟨?_, ?_, ?_, ?_⟩
  · intro ws log msg
    unfold safeSendE safeSend sendRaw
    by_cases h1 : ws.readyState = 1 <;> by_cases h2 : ws.sendFails <;> simp [h1, h2]
  · unfold fanout
    rw [List.map_map]
    rfl
  · simp [deliverChunk, safeSend, sendRaw, hok, hready]
  · exact List.mem_map.mpr ⟨l, hmem, rfl⟩

/-- Witness for `send_failure_isolated`: a healthy listener next to a failing
one. -/
theorem send_failure_isolated_witness :
    (∀ ws log msg, safeSendE ws log msg = Except.ok (safeSend ws log msg)) ∧
    (fanout "s" ['x'] [⟨⟨1, true⟩, []⟩, ⟨⟨1, false⟩, []⟩]).map (fun x => x.ws) =
      [⟨⟨1, true⟩, []⟩, (⟨⟨1, false⟩, []⟩ : ListenerConn)].map (fun x => x.ws) ∧
    (deliverChunk "s" ['x'] ⟨⟨1, false⟩, []⟩).log = [] ++ [OutMsg.output "s" ['x']] ∧
    deliverChunk "s" ['x'] ⟨⟨1, false⟩, []⟩ ∈ fanout "s" ['x'] [⟨⟨1, true⟩, []⟩, ⟨⟨1, false⟩, []⟩] :=
  send_failure_isolated "s" ['x'] [⟨⟨1, true⟩, []⟩, ⟨⟨1, false⟩, []⟩] ⟨⟨1, false⟩, []⟩
    (by simp) rfl rfl

/-! ## The WebSocket message handler (`server.js` lines 223-293) -/

/-- A parsed client message: the three recognized types, or any other parsed
value (whose `type` is not attach/input/resize). -/
inductive ClientMsg where
  | attachMsg (sessionId : String) (cols rows : Nat)
  | inputMsg (data : Chunk)
  | resizeMsg (cols rows : Nat)
  | other (ty : String)
  deriving DecidableEq, Repr

/-- The result of `JSON.parse(raw)` inside the try/catch of the message
handler: the parse throwing (which the catch turns into an immediate return),
the JSON value `null` (produced by the four-byte payload `null`), or any other
parsed value viewed through its `type` field.  Non-null primitives and arrays
have an undefined `type` and fall under `other`. -/
inductive ParseResult where
  | parseError
  | nullValue
  | parsed (msg : ClientMsg)
  deriving DecidableEq, Repr

/-- The `ws.on('message')` handler with its thrown errors made explicit.  Only
`JSON.parse` is inside the try/catch; the `switch (msg.type)` scrutinee is
evaluated after it, so when the payload parses to `null`, reading `msg.type`
throws a TypeError that escapes the handler — before any state is touched or
any message sent.  Otherwise the switch dispatches as in the source: `attach`
runs the attach case, `input` and `resize` forward to the manager when a
session is attached (with JS numeric truthiness on the dimensions), and any
other type falls through the switch doing nothing. -/
def handleMessageE (m : Manager) (raw : ParseResult) (conn : ConnState) :
    Except String (Manager × ConnState × List OutMsg) :=
  match raw with
  | ParseResult.parseError => Except.ok (m, conn, [])
  | ParseResult.nullValue => Except.error "TypeError: Cannot read properties of null"
  | ParseResult.parsed (ClientMsg.attachMsg sid cols rows) =>
      Except.ok (attachCase m sid cols rows conn)
  | ParseResult.parsed (ClientMsg.inputMsg d) =>
      Except.ok
        (match conn.attachedSessionId with
         | some sid => (write m sid d, conn, [])
         | none => (m, conn, []))
  | ParseResult.parsed (ClientMsg.resizeMsg cols rows) =>
      Except.ok
        (match conn.attachedSessionId with
         | some sid =>
             if cols ≠ 0 ∧ rows ≠ 0 then (resize m sid cols rows, conn, []) else (m, conn, [])
         | none => (m, conn, []))
  | ParseResult.parsed (ClientMsg.other _) => Except.ok (m, conn, [])

/-- Counterexample to C9 as stated: the payload `null` is valid JSON whose
parsed type is not one of attach/input/resize, yet the handler is not a
no-op that lets no exception escape — `msg.type` is evaluated outside the
try/catch, and on the parsed value `null` it throws a TypeError that escapes
the message handler. -/
theorem invalid_message_noop_cex :
    handleMessageE [] ParseResult.nullValue ⟨none, none, 0⟩ =
      Except.error "TypeError: Cannot read properties of null" := rfl

/-- C9 (amended): a message whose payload is not valid JSON is a total no-op
(the `JSON.parse` error is caught inside the handler), and a message parsing
to a non-null value whose type is not one of attach/input/resize is a total
no-op — in both cases the handler returns normally with the manager, the
connection's attach state, and the outgoing message stream all unchanged; the
one exception is a payload parsing to JSON `null`, on which reading
`msg.type` throws a TypeError that escapes the handler, still mutating no
state and sending nothing. -/
theorem invalid_message_noop_amended (m : Manager) (conn : ConnState) :
    handleMessageE m ParseResult.parseError conn = Except.ok (m, conn, []) ∧
    (∀ t, handleMessageE m (ParseResult.parsed (ClientMsg.other t)) conn =
      Except.ok (m, conn, [])) ∧
    handleMessageE m ParseResult.nullValue conn =
      Except.error "TypeError: Cannot read properties of null" :=
  ⟨rfl, fun _ => rfl, rfl⟩

/-! ## The atomic metadata store (`store.js`) -/

/-- The file-system model: a map from path to file contents. -/
abbrev FS := List (String × String)

/-- Contents stored at a path, if any. -/
def fsLookup : FS → String → Option String
  | [], _ => none
  | q :: rest, p => if q.1 = p then some q.2 else fsLookup rest p

/-- Remove a path (no-op when absent — also models `unlink` of a missing
file whose error the caller ignores). -/
def fsErase (fs : FS) (p : String) : FS := fs.filter (fun q => ¬ q.1 = p)

/-- Write contents at a path, replacing any previous entry. -/
def fsSet (fs : FS) (p v : String) : FS := fsErase fs p ++ [(p, v)]

/-- `STORE_PATH` of `store.js`: `sessions.json` next to the module. -/
def STORE_PATH : String := "sessions.json"

/-- The temporary path `STORE_PATH + '.tmp.' + <8 random hex chars>`. -/
def tmpPath (suffix : String) : String := STORE_PATH ++ ".tmp." ++ suffix

/-- `fs.writeFileSync` with an explicit failure switch: on success the file
holds the data; on failure the call throws, leaving at most a partially
written file. -/
def writeFileSyncM (fail : Bool) (fs : FS) (p v halfWritten : String) : FS × Bool :=
  if fail then (fsSet fs p halfWritten, true) else (fsSet fs p v, false)

/-- `fs.renameSync`: atomically replaces `dst` with `src`; throws without
mutating anything when it fails or `src` is missing. -/
def renameSyncM (fail : Bool) (fs : FS) (src dst : String) : FS × Bool :=
  if fail then (fs, true)
  else
    match fsLookup fs src with
    | some v => (fsSet (fsErase fs src) dst v, false)
    | none => (fs, true)

/-- `saveSessions` of `store.js`: write the serialized sessions to a fresh
temporary file, rename it over the store path; on any failure remove the
temporary file (ignoring unlink errors) and leave the store untouched. -/
def saveSessions (failWrite failRename : Bool) (halfWritten suffix : String)
    (fs : FS) (data : String) : FS :=
  let tmp := tmpPath suffix
  let w := writeFileSyncM failWrite fs tmp data halfWritten
  if w.2 then fsErase w.1 tmp
  else
    let r := renameSyncM failRename w.1 tmp STORE_PATH
    if r.2 then fsErase r.1 tmp else r.1

/-- `saveSessions` with the thrown errors made explicit: the catch block runs
the cleanup and the function returns normally in every case. -/
def saveSessionsE (failWrite failRename : Bool) (halfWritten suffix : String)
    (fs : FS) (data : String) : Except String FS :=
  let tmp := tmpPath suffix
  let w := writeFileSyncM failWrite fs tmp data halfWritten
  let attempt : Except (String × FS) FS :=
    if w.2 then Except.error ("write failed", w.1)
    else
      let r := renameSyncM failRename w.1 tmp STORE_PATH
      if r.2 then Except.error ("rename failed", r.1) else Except.ok r.1
  match attempt with
  | Except.ok fs2 => Except.ok fs2
  | Except.error e => Except.ok (fsErase e.2 tmp)

theorem fsLookup_fsErase_self (fs : FS) (p : String) : fsLookup (fsErase fs p) p = none := by
  induction fs with
  | nil => rfl
  | cons q rest ih =>
      by_cases h : q.1 = p
      · simpa [fsErase, h] using ih
      · simpa [fsErase, fsLookup, h] using ih

theorem fsLookup_fsErase_ne (fs : FS) (p p' : String) (h : ¬ p' = p) :
    fsLookup (fsErase fs p) p' = fsLookup fs p' := by
  induction fs with
  | nil => rfl
  | cons q rest ih =>
      by_cases hq : q.1 = p
      · have hq' : ¬ q.1 = p' := by rw [hq]; intro hc; exact h hc.symm
        have he : fsErase (q :: rest) p = fsErase rest p := by
          simp [fsErase, List.filter_cons, hq]
        rw [he, ih]
        simp [fsLookup, hq']
      · have he : fsErase (q :: rest) p = q :: fsErase rest p := by
          simp [fsErase, List.filter_cons, hq]
        rw [he]
        by_cases hp : q.1 = p'
        · simp [fsLookup, hp]
        · simp only [fsLookup, if_neg hp]
          exact ih

theorem fsLookup_append (fs1 fs2 : FS) (p : String) :
    fsLookup (fs1 ++ fs2) p =
      match fsLookup fs1 p with
      | some v => some v
      | none => fsLookup fs2 p := by
  induction fs1 with
  | nil => rfl
  | cons q rest ih =>
      by_cases hq : q.1 = p
      · simp [fsLookup, hq]
      · simp [fsLookup, hq, ih]

theorem fsLookup_fsSet_self (fs : FS) (p v : String) : fsLookup (fsSet fs p v) p = some v := by
  unfold fsSet
  rw [fsLookup_append, fsLookup_fsErase_self]
  simp [fsLookup]

theorem fsLookup_fsSet_ne (fs : FS) (p v p' : String) (h : ¬ p' = p) :
    fsLookup (fsSet fs p v) p' = fsLookup fs p' := by
  unfold fsSet
  rw [fsLookup_append, fsLookup_fsErase_ne fs p p' h]
  cases hf : fsLookup fs p' with
  | some x => rfl
  | none =>
      have hne : ¬ p = p' := fun hc => h hc.symm
      simp [fsLookup, hne]

theorem tmpPath_ne_store (suffix : String) : ¬ tmpPath suffix = STORE_PATH := by
  intro h
  have hlen : (tmpPath suffix).length = STORE_PATH.length := congrArg String.length h
  rw [tmpPath, String.length_append, String.length_append] at hlen
  have h13 : STORE_PATH.length = 13 := by decide
  have h5 : String.length ".tmp." = 5 := by decide
  omega

/-- C10: `saveSessions` is atomic and non-throwing — the store path ends up
holding either its previous contents (when the write or the rename fails) or
exactly the new data (on success), never a partial write; the temporary file
is gone in every outcome; and no exception escapes to the caller. -/
theorem save_sessions_atomic (failWrite failRename : Bool) (halfWritten suffix : String)
    (fs : FS) (data : String) :
    fsLookup (saveSessions failWrite failRename halfWritten suffix fs data) STORE_PATH =
      (if failWrite || failRename then fsLookup fs STORE_PATH else some data) ∧
    fsLookup (saveSessions failWrite failRename halfWritten suffix fs data) (tmpPath suffix) =
      none ∧
    saveSessionsE failWrite failRename halfWritten suffix fs data =
      Except.ok (saveSessions failWrite failRename halfWritten suffix fs data) := by
  have hst : ¬ STORE_PATH = tmpPath suffix := fun hc => tmpPath_ne_store suffix hc.symm
  cases failWrite with
  | true =>
      refine ⟨?_, ?_, ?_⟩
      · show fsLookup (fsErase (fsSet fs (tmpPath suffix) halfWritten) (tmpPath suffix))
            STORE_PATH = _
        rw [fsLookup_fsErase_ne _ _ _ hst, fsLookup_fsSet_ne _ _ _ _ hst]
        simp
      · show fsLookup (fsErase (fsSet fs (tmpPath suffix) halfWritten) (tmpPath suffix))
            (tmpPath suffix) = none
        exact fsLookup_fsErase_self _ _
      · rfl
  | false =>
      cases failRename with
      | true =>
          refine ⟨?_, ?_, ?_⟩
          · show fsLookup (fsErase (fsSet fs (tmpPath suffix) data) (tmpPath suffix))
                STORE_PATH = _
            rw [fsLookup_fsErase_ne _ _ _ hst, fsLookup_fsSet_ne _ _ _ _ hst]
            simp
          · show fsLookup (fsErase (fsSet fs (tmpPath suffix) data) (tmpPath suffix))
                (tmpPath suffix) = none
            exact fsLookup_fsErase_self _ _
          · rfl
      | false =>
          have hlook : fsLookup (fsSet fs (tmpPath suffix) data) (tmpPath suffix) = some data :=
            fsLookup_fsSet_self _ _ _
          have hsave : saveSessions false false halfWritten suffix fs data =
              fsSet (fsErase (fsSet fs (tmpPath suffix) data) (tmpPath suffix))
                STORE_PATH data := by
            simp [saveSessions, writeFileSyncM, renameSyncM, hlook]
          refine ⟨?_, ?_, ?_⟩
          · rw [hsave, fsLookup_fsSet_self]
            simp
          · rw [hsave, fsLookup_fsSet_ne _ _ _ _ (tmpPath_ne_store suffix),
              fsLookup_fsErase_self]
          · rw [hsave]
            simp [saveSessionsE, writeFileSyncM, renameSyncM, hlook]

/-- Witness for `save_sessions_atomic`: a successful save over an existing
store file. -/
theorem save_sessions_atomic_witness :
    fsLookup (saveSessions false false "par" "ab" [("sessions.json", "old")] "new") STORE_PATH =
      (if false || false then fsLookup [("sessions.json", "old")] STORE_PATH else some "new") ∧
    fsLookup (saveSessions false false "par" "ab" [("sessions.json", "old")] "new")
      (tmpPath "ab") = none ∧
    saveSessionsE false false "par" "ab" [("sessions.json", "old")] "new" =
      Except.ok (saveSessions false false "par" "ab" [("sessions.json", "old")] "new") :=
  save_sessions_atomic false false "par" "ab" [("sessions.json", "old")] "new"
